import Mathlib

/-!
Verification of the slcgen glyph-outline generator (`slcgen.py`).

We shallowly embed the parts of the program the claims concern:
parameter resolution (`SLCParameters.__init__`), the unit-square to
design-coordinate mapping with Python rounding, the shade / ltshade /
dkshade pattern generators, the box-drawing line-stroke synthesizer
(`_extendpoints`, `_boxdrawline` and its four callers), the diagonal-fill
clipping step, the ellipse contour emission, and the preamble of `slcgen`
that computes derived ratios by division.

Numbers are modelled as rationals (Python floats/ints idealised as exact
arithmetic); `round` is modelled as round-half-to-even (`pyRound`), the
behaviour of Python 3's built-in `round`.  The trigonometric fields of
`SLCParameters` are treated as follows: `diagonalFillAngle` is kept at its
default `atan2(height, width)` (an overridden angle feeds irrational
`sin`/`cos` values that a rational model cannot evaluate, and no claim
refers to the angle), while the resolved `diagonalFillWeight` and
`diagonalSpaceWeight` pair is modelled symbolically (`DiagWeights`): both
override values when at least one is supplied, or the shared default
`(height*|cos t| + width*|sin t|)/16`, whose vanishing at the default
angle is decided exactly by its rational numerator
`height*|width| + width*|height|`.
-/

namespace SLC

/-- Python 3 `round`: round half to even.  `pyRound q` is the nearest
integer to `q`, ties going to the even integer. -/
def pyRound (q : ℚ) : ℤ :=
  if q - (⌊q⌋ : ℚ) < 1/2 then ⌊q⌋
  else if 1/2 < q - (⌊q⌋ : ℚ) then ⌊q⌋ + 1
  else if 2 ∣ ⌊q⌋ then ⌊q⌋ else ⌊q⌋ + 1

/-- A point in design coordinates. -/
abbrev Pt : Type := ℚ × ℚ

/-- The sparse record of user overrides fed to `SLCParameters.__init__`
(`None` = not supplied).  The output-file path is omitted (no claim refers
to it), and so is `diagonalFillAngle`: an overridden angle makes the
default diagonal weight depend on `sin`/`cos` of an arbitrary angle, which
a rational model cannot evaluate; the weight overrides themselves are
included. -/
structure Overrides where
  ascent : Option ℚ := none
  descent : Option ℚ := none
  width : Option ℚ := none
  pixelHeight : Option ℚ := none
  pixelWidth : Option ℚ := none
  diagonalFillWeight : Option ℚ := none
  diagonalSpaceWeight : Option ℚ := none
  boxLightWeight : Option ℚ := none
  boxHeavyWeight : Option ℚ := none
  boxDoubleGap : Option ℚ := none
  boxArcRadius : Option ℚ := none
  boxTickLength : Option ℚ := none
  boxLineTruncate : Option Bool := none
  separationTop : Option ℚ := none
  separationRight : Option ℚ := none
  separationBottom : Option ℚ := none
  separationLeft : Option ℚ := none

/-- The fully resolved parameter record (the attributes `SLCParameters`
ends up with, minus the trigonometric diagonal-fill fields). -/
structure Params where
  ascent : ℚ
  descent : ℚ
  height : ℚ
  width : ℚ
  pixelHeight : ℚ
  pixelWidth : ℚ
  boxLightWeight : ℚ
  boxHeavyWeight : ℚ
  boxDoubleGap : ℚ
  boxArcRadius : ℚ
  boxTickLength : ℚ
  boxLineTruncate : Bool
  separationTop : ℚ
  separationRight : ℚ
  separationBottom : ℚ
  separationLeft : ℚ
deriving DecidableEq

/-- `self.ascent = ascent if ascent is not None else descent * 4 if descent
is not None else 800`. -/
def resolveAscent (o : Overrides) : ℚ :=
  match o.ascent with
  | some a => a
  | none =>
    match o.descent with
    | some d => d * 4
    | none => 800

/-- `self.descent = descent if descent is not None else ascent / 4 if
ascent is not None else 200` (the fallback divides the override `ascent`,
not the resolved one; they coincide when `ascent` is supplied). -/
def resolveDescent (o : Overrides) : ℚ :=
  match o.descent with
  | some d => d
  | none =>
    match o.ascent with
    | some a => a / 4
    | none => 200

/-- `self.height = self.ascent + self.descent`. -/
def resolveHeight (o : Overrides) : ℚ :=
  resolveAscent o + resolveDescent o

/-- `self.width = width if width is not None else self.height`. -/
def resolveWidth (o : Overrides) : ℚ :=
  match o.width with
  | some w => w
  | none => resolveHeight o

/-- `self.pixelHeight = pixelHeight if pixelHeight is not None else
pixelWidth if pixelWidth is not None else 20`. -/
def resolvePixelHeight (o : Overrides) : ℚ :=
  match o.pixelHeight with
  | some v => v
  | none => match o.pixelWidth with
    | some v => v
    | none => 20

/-- `self.pixelWidth = pixelWidth if pixelWidth is not None else
pixelHeight if pixelHeight is not None else 20`. -/
def resolvePixelWidth (o : Overrides) : ℚ :=
  match o.pixelWidth with
  | some v => v
  | none => match o.pixelHeight with
    | some v => v
    | none => 20

/-- The resolved `diagonalFillWeight`/`diagonalSpaceWeight` pair
(lines 34-41 of the source).  When at least one is overridden the pair is
two explicit numbers; when neither is, both equal the trigonometric
default `(height*|cos t| + width*|sin t|)/16`, represented symbolically
since it is irrational in general. -/
inductive DiagWeights where
  | explicitW : (fill : ℚ) → (space : ℚ) → DiagWeights
  | defaultW : DiagWeights
deriving DecidableEq

/-- Lines 34-41: `diagonalFillWeight = override else the other override`,
`diagonalSpaceWeight = override else the other override`, and the shared
trigonometric default when neither is given. -/
def resolveDiagWeights (o : Overrides) : DiagWeights :=
  match o.diagonalFillWeight, o.diagonalSpaceWeight with
  | none, none => DiagWeights.defaultW
  | some f, some s => DiagWeights.explicitW f s
  | some f, none => DiagWeights.explicitW f f
  | none, some s => DiagWeights.explicitW s s

/-- Whether `diagonalFillWeight + diagonalSpaceWeight` — the denominator
of the stripe-count division `x / (fill + space)` at line 198 of the
source — is zero.  In the default branch (neither weight overridden, and
the angle at its default `atan2(height, width)`) the sum is
`2 * (height*|width| + width*|height|) / (16 * sqrt(height^2 + width^2))`,
which vanishes exactly when its rational numerator does. -/
def diagWeightSumZero (o : Overrides) : Bool :=
  match resolveDiagWeights o with
  | DiagWeights.explicitW f s => decide (f + s = 0)
  | DiagWeights.defaultW =>
      decide (resolveHeight o * |resolveWidth o| +
        resolveWidth o * |resolveHeight o| = 0)

/-- The light box-drawing weight: `height / 9` when neither weight is
overridden, else the override, else `boxHeavyWeight / 2`. -/
def resolveBoxLightWeight (o : Overrides) : ℚ :=
  match o.boxLightWeight, o.boxHeavyWeight with
  | none, none => resolveHeight o / 9
  | some l, _ => l
  | none, some h => h / 2

/-- The heavy box-drawing weight: `2 * (height / 9)` when neither weight is
overridden, else the override, else `boxLightWeight * 2`. -/
def resolveBoxHeavyWeight (o : Overrides) : ℚ :=
  match o.boxLightWeight, o.boxHeavyWeight with
  | none, none => resolveHeight o / 9 * 2
  | _, some h => h
  | some l, none => l * 2

/-- `self.boxDoubleGap = boxDoubleGap if ... else self.boxLightWeight`. -/
def resolveBoxDoubleGap (o : Overrides) : ℚ :=
  match o.boxDoubleGap with
  | some v => v
  | none => resolveBoxLightWeight o

/-- `self.boxArcRadius = boxArcRadius if ... else min(height, width)/2`. -/
def resolveBoxArcRadius (o : Overrides) : ℚ :=
  match o.boxArcRadius with
  | some v => v
  | none => min (resolveHeight o) (resolveWidth o) / 2

/-- `self.boxTickLength = boxTickLength if ... else
min(max(height,width)/3, min(height,width)/2)`. -/
def resolveBoxTickLength (o : Overrides) : ℚ :=
  match o.boxTickLength with
  | some v => v
  | none =>
    min (max (resolveHeight o) (resolveWidth o) / 3)
        (min (resolveHeight o) (resolveWidth o) / 2)

/-- `self.boxLineTruncate = boxLineTruncate if ... else True`. -/
def resolveBoxLineTruncate (o : Overrides) : Bool :=
  match o.boxLineTruncate with
  | some b => b
  | none => true

/-- `self.separationTop`: own override, else `separationBottom`, else
`separationRight` (if left absent), else `separationLeft` (if right
absent), else `height/18` — transcribing the chained conditional at
lines 54-60 of the source. -/
def resolveSepTop (o : Overrides) : ℚ :=
  match o.separationTop with
  | some v => v
  | none => match o.separationBottom with
    | some v => v
    | none => match o.separationRight, o.separationLeft with
      | some r, none => r
      | none, some l => l
      | _, _ => resolveHeight o / 18

/-- `self.separationRight`: own override, else `separationLeft`, else
`separationTop` (if bottom absent), else `separationBottom` (if top
absent), else `height/18`. -/
def resolveSepRight (o : Overrides) : ℚ :=
  match o.separationRight with
  | some v => v
  | none => match o.separationLeft with
    | some v => v
    | none => match o.separationTop, o.separationBottom with
      | some t, none => t
      | none, some b => b
      | _, _ => resolveHeight o / 18

/-- `self.separationBottom`: own override, else `separationTop`, else
`separationRight` (if left absent), else `separationLeft` (if right
absent), else `height/18`. -/
def resolveSepBottom (o : Overrides) : ℚ :=
  match o.separationBottom with
  | some v => v
  | none => match o.separationTop with
    | some v => v
    | none => match o.separationRight, o.separationLeft with
      | some r, none => r
      | none, some l => l
      | _, _ => resolveHeight o / 18

/-- `self.separationLeft`: own override, else `separationRight`, else
`separationTop` (if bottom absent), else `separationBottom` (if top
absent), else `height/18`. -/
def resolveSepLeft (o : Overrides) : ℚ :=
  match o.separationLeft with
  | some v => v
  | none => match o.separationRight with
    | some v => v
    | none => match o.separationTop, o.separationBottom with
      | some t, none => t
      | none, some b => b
      | _, _ => resolveHeight o / 18

/-- `SLCParameters.__init__`: the complete parameter-resolution step
(lines 11-83 of the source), one field per helper above. -/
def SLCParameters.init (o : Overrides) : Params where
  ascent := resolveAscent o
  descent := resolveDescent o
  height := resolveHeight o
  width := resolveWidth o
  pixelHeight := resolvePixelHeight o
  pixelWidth := resolvePixelWidth o
  boxLightWeight := resolveBoxLightWeight o
  boxHeavyWeight := resolveBoxHeavyWeight o
  boxDoubleGap := resolveBoxDoubleGap o
  boxArcRadius := resolveBoxArcRadius o
  boxTickLength := resolveBoxTickLength o
  boxLineTruncate := resolveBoxLineTruncate o
  separationTop := resolveSepTop o
  separationRight := resolveSepRight o
  separationBottom := resolveSepBottom o
  separationLeft := resolveSepLeft o

/-- The separation fallback rule exactly as the specification words it
(for comparison with the source transcriptions above): the edge's own
override; else the opposite edge's override; else the perpendicular-axis
override, but only when exactly one of that perpendicular pair was given;
else the terminal default. -/
def sepResolveSpec (own opp perpA perpB : Option ℚ) (dflt : ℚ) : ℚ :=
  match own with
  | some v => v
  | none => match opp with
    | some v => v
    | none => match perpA, perpB with
      | some a, none => a
      | none, some b => b
      | _, _ => dflt

/-- An axis-aligned rectangle given by two opposite corners, as passed to
`rawrect` / `_rectccw` (the filled region does not depend on the corner
order or the winding direction of the emitted contour). -/
structure Rect where
  x1 : ℚ
  y1 : ℚ
  x2 : ℚ
  y2 : ℚ
deriving DecidableEq

/-- `rect(x1,y1,x2,y2)`: unit-square coordinates mapped to design
coordinates `(width*x, ascent - height*y)` and rounded, exactly as `rect`
composed with `rawrect` does. -/
def designRect (p : Params) (x1 y1 x2 y2 : ℚ) : Rect where
  x1 := ((pyRound (p.width * x1) : ℤ) : ℚ)
  y1 := ((pyRound (p.ascent - p.height * y1) : ℤ) : ℚ)
  x2 := ((pyRound (p.width * x2) : ℤ) : ℚ)
  y2 := ((pyRound (p.ascent - p.height * y2) : ℤ) : ℚ)

/-- The set of points covered by a rectangle (closed; corners may come in
either order). -/
def rectSet (r : Rect) : Set Pt :=
  {q | min r.x1 r.x2 ≤ q.1 ∧ q.1 ≤ max r.x1 r.x2 ∧
       min r.y1 r.y2 ≤ q.2 ∧ q.2 ≤ max r.y1 r.y2}

/-- The design rectangle of `rect(0, 0, 1, 1)` — the full cell. -/
def fullRect (p : Params) : Rect := designRect p 0 0 1 1

/-- The checkerboard parity condition of `GlyphProxy.shade` /
`GlyphProxy.shadepart` (line 158 of the source):
`((x + y) & 1) ^ ((rows + cols) & 1) ^ (0 if inverse else 1)` is truthy. -/
def shadeCond (rows cols : ℕ) (inverse : Bool) (x y : ℕ) : Bool :=
  (((x + y) &&& 1) ^^^ ((rows + cols) &&& 1) ^^^ (if inverse then 0 else 1)) != 0

/-- The cell indices `(x, y)` whose rectangles `GlyphProxy.shade` emits,
in loop order (`y` outer, `x` inner). -/
def shadeCells (rows cols : ℕ) (inverse : Bool) : List (ℕ × ℕ) :=
  (List.range rows).flatMap fun y =>
    (List.range cols).flatMap fun x =>
      if shadeCond rows cols inverse x y then [(x, y)] else []

/-- The rectangle emitted for grid cell `(x, y)` of a `rows x cols` grid:
`rect(x/cols, y/rows, (x+1)/cols, (y+1)/rows)`. -/
def cellRect (p : Params) (rows cols x y : ℕ) : Rect :=
  designRect p ((x : ℚ) / cols) ((y : ℚ) / rows)
    (((x : ℚ) + 1) / cols) (((y : ℚ) + 1) / rows)

/-- `GlyphProxy.shade` (lines 154-160): the emitted cell rectangles. -/
def shade (p : Params) (rows cols : ℕ) (inverse : Bool) : List Rect :=
  (shadeCells rows cols inverse).map fun c => cellRect p rows cols c.1 c.2

/-- The parity condition of `GlyphProxy.ltshade` (line 180):
`((x + y) & 1) == ((rows + cols) & 1)`. -/
def ltshadeCond (rows cols x y : ℕ) : Bool :=
  ((x + y) &&& 1) == ((rows + cols) &&& 1)

/-- The sub-row cell indices `GlyphProxy.ltshade` emits: `y` ranges over
`range(rows // 2)` and the cell occupies grid row `2*y`. -/
def ltshadeCells (rows cols : ℕ) : List (ℕ × ℕ) :=
  (List.range (rows / 2)).flatMap fun y =>
    (List.range cols).flatMap fun x =>
      if ltshadeCond rows cols x y then [(x, y)] else []

/-- The rectangle for an ltshade sub-row cell `(x, y)`:
`rect(x/cols, 2*y/rows, (x+1)/cols, (2*y+1)/rows)`. -/
def ltCellRect (p : Params) (rows cols x y : ℕ) : Rect :=
  designRect p ((x : ℚ) / cols) ((2 * y : ℚ) / rows)
    (((x : ℚ) + 1) / cols) (((2 * y : ℚ) + 1) / rows)

/-- `GlyphProxy.ltshade` (lines 177-182): the emitted cell rectangles. -/
def ltshade (p : Params) (rows cols : ℕ) : List Rect :=
  (ltshadeCells rows cols).map fun c => ltCellRect p rows cols c.1 c.2

/-- The reversed-winding hole rectangles `GlyphProxy.dkshade`
(lines 184-193) emits before adding `rect(0,0,1,1)`: the identical loop,
condition and coordinates as `ltshade`, drawn with `_rectccw`. -/
def dkshadeHoles (p : Params) (rows cols : ℕ) : List Rect :=
  (ltshadeCells rows cols).map fun c => ltCellRect p rows cols c.1 c.2

/-- The region `dkshade` produces: the full cell `rect(0,0,1,1)` minus the
reversed-winding hole cells (the effect of `removeOverlap` on a positive
contour with opposite-winding holes inside it). -/
def dkshadeRegion (p : Params) (rows cols : ℕ) : Set Pt :=
  rectSet (fullRect p) \ ⋃ r ∈ dkshadeHoles p rows cols, rectSet r

/-- The region covered by the ltshade-selected cells. -/
def ltshadeRegion (p : Params) (rows cols : ℕ) : Set Pt :=
  ⋃ r ∈ ltshade p rows cols, rectSet r

/-- The em bounding box `[0, width] x [-descent, ascent]`. -/
def emBox (p : Params) : Set Pt :=
  {q | 0 ≤ q.1 ∧ q.1 ≤ p.width ∧ -p.descent ≤ q.2 ∧ q.2 ≤ p.ascent}

/-- Rounding a point to integer design coordinates, as `rawpoly` does when
`_stripcontrolpoints` re-emits the on-curve vertices. -/
def roundPt (q : Pt) : Pt := (((pyRound q.1 : ℤ) : ℚ), ((pyRound q.2 : ℤ) : ℚ))

/-- `GlyphProxy.diagfill` after the stripe construction (lines 195-209):
whatever stripe set the rotation and translation produced (here an
arbitrary set `stripes`, since the rotation is floating-point
trigonometry), the method then adds `rect(0, 0, 1, 1)` and intersects the
glyph with it, so the result is the stripe set clipped to that
rectangle. -/
def diagfillResult (p : Params) (stripes : Set Pt) : Set Pt :=
  stripes ∩ rectSet (fullRect p)

/-- Componentwise point subtraction. -/
def psub (u v : Pt) : Pt := (u.1 - v.1, u.2 - v.2)

/-- `GlyphProxy._extendpoints` (lines 235-240): replace the first point by
`points[0] - (points[1] - points[0])` and the last by
`points[-1] - (points[-2] - points[-1])`, keeping `points[1:-1]`
in between.  Only ever called with at least two points; shorter lists are
returned unchanged (Python would raise `IndexError`). -/
def extendpoints (ps : List Pt) : List Pt :=
  match ps with
  | p0 :: p1 :: rest =>
    psub p0 (psub p1 p0) ::
      (List.dropLast (p1 :: rest) ++
        [psub (List.getLastD (p1 :: rest) p0)
          (psub (List.getLastD (List.dropLast (p0 :: p1 :: rest)) p0)
            (List.getLastD (p1 :: rest) p0))])
  | other => other

/-- The unit-square to design-coordinate mapping with rounding,
`(round(width*x), round(ascent - height*y))`, applied by the glyph pens. -/
def toDesign (p : Params) (q : Pt) : Pt :=
  (((pyRound (p.width * q.1) : ℤ) : ℚ),
   ((pyRound (p.ascent - p.height * q.2) : ℤ) : ℚ))

/-- Stroke cap styles passed to FontForge's `stroke`. -/
inductive CapStyle where
  | butt : CapStyle
  | square : CapStyle
deriving DecidableEq

/-- Stroke join styles passed to FontForge's `stroke`. -/
inductive JoinStyle where
  | miter : JoinStyle
deriving DecidableEq

/-- One stroked polyline as `_boxdrawline` sets it up: the design-space
points fed to the pen, the stroke weight, cap and join style, and the
clip rectangle intersected afterwards (when truncating). -/
structure Stroke where
  points : List Pt
  weight : ℚ
  cap : CapStyle
  join : JoinStyle
  clip : Option Rect
deriving DecidableEq

/-- The clip rectangle drawn at lines 255-259 of the source:
`(0, ascent) - (width, ascent) - (width, -descent) - (0, -descent)`,
with exact (unrounded) coordinates — the em bounding box. -/
def emClipRect (p : Params) : Rect where
  x1 := 0
  y1 := p.ascent
  x2 := p.width
  y2 := -p.descent

/-- `GlyphProxy._boxdrawline` (lines 242-271): when `truncate` the line is
first extended via `_extendpoints`, stroked with square caps and miter
joins and intersected with the em box; otherwise it is stroked as-is with
butt caps and miter joins and not clipped. -/
def boxdrawline (p : Params) (line : List Pt) (weight : ℚ)
    (truncate : Bool) : Stroke :=
  if truncate then
    { points := (extendpoints line).map (toDesign p), weight := weight,
      cap := CapStyle.square, join := JoinStyle.miter,
      clip := some (emClipRect p) }
  else
    { points := line.map (toDesign p), weight := weight,
      cap := CapStyle.butt, join := JoinStyle.miter, clip := none }

/-- `GlyphProxy.boxdrawlight`: every line stroked at `boxLightWeight`,
never truncating. -/
def boxdrawlightStrokes (p : Params) (lines : List (List Pt)) : List Stroke :=
  lines.map fun l => boxdrawline p l p.boxLightWeight false

/-- `GlyphProxy.boxdrawheavy`: every line stroked at `boxHeavyWeight`,
never truncating. -/
def boxdrawheavyStrokes (p : Params) (lines : List (List Pt)) : List Stroke :=
  lines.map fun l => boxdrawline p l p.boxHeavyWeight false

/-- `GlyphProxy.boxdrawmixed`: the light-weight lines then the
heavy-weight lines, all non-truncating. -/
def boxdrawmixedStrokes (p : Params) (lightLines heavyLines : List (List Pt)) :
    List Stroke :=
  (lightLines.map fun l => boxdrawline p l p.boxLightWeight false) ++
  (heavyLines.map fun l => boxdrawline p l p.boxHeavyWeight false)

/-- `GlyphProxy.boxdrawdiag`: every line stroked at `boxLightWeight` with
`truncate = params.boxLineTruncate`. -/
def boxdrawdiagStrokes (p : Params) (lines : List (List Pt)) : List Stroke :=
  lines.map fun l => boxdrawline p l p.boxLightWeight p.boxLineTruncate

/-- A contour, abstractly: its vertex list. -/
abbrev Contour : Type := List Pt

/-- One glyph slot of the font: its contour list and advance width. -/
structure Glyph where
  contours : List Contour
  width : ℚ

/-- The font as a map from codepoint to glyph slot (`createChar`). -/
def Font : Type := ℕ → Glyph

/-- `GlyphProxy._boxdrawline`'s effect on the font state (lines 242-271):
the glyph at codepoint 32 is used as a scratch buffer — its contents are
replaced by the stroked line (`strokeFn` abstracts FontForge's `stroke`
and the optional clipping), the result is drawn (appended) into the
target glyph, then the scratch glyph is cleared and its width set to
`params.width`. -/
def boxdrawlineFont (p : Params) (strokeFn : List Pt → ℚ → Bool → List Contour)
    (target : ℕ) (line : List Pt) (weight : ℚ) (truncate : Bool)
    (f : Font) : Font :=
  let stroked := strokeFn line weight truncate
  let f1 := Function.update f 32 { contours := stroked, width := (f 32).width }
  let f2 := Function.update f1 target
    { contours := (f1 target).contours ++ (f1 32).contours,
      width := (f1 target).width }
  Function.update f2 32 { contours := [], width := p.width }

/-- The trailing `removeOverlap; simplify; _stripcontrolpoints` of the
four box-drawing methods: a transformation of the target glyph's contours
(abstracted as `post`), with the target's width set to `params.width`
(done by `_stripcontrolpoints`). -/
def postProcess (post : List Contour → List Contour) (p : Params)
    (target : ℕ) (f : Font) : Font :=
  Function.update f target
    { contours := post (f target).contours, width := p.width }

/-- `GlyphProxy.boxdrawlight` as a font-state transformer. -/
def boxdrawlightFont (p : Params) (strokeFn : List Pt → ℚ → Bool → List Contour)
    (post : List Contour → List Contour) (target : ℕ)
    (lines : List (List Pt)) (f : Font) : Font :=
  postProcess post p target
    (lines.foldl
      (fun g l => boxdrawlineFont p strokeFn target l p.boxLightWeight false g) f)

/-- `GlyphProxy.boxdrawheavy` as a font-state transformer. -/
def boxdrawheavyFont (p : Params) (strokeFn : List Pt → ℚ → Bool → List Contour)
    (post : List Contour → List Contour) (target : ℕ)
    (lines : List (List Pt)) (f : Font) : Font :=
  postProcess post p target
    (lines.foldl
      (fun g l => boxdrawlineFont p strokeFn target l p.boxHeavyWeight false g) f)

/-- `GlyphProxy.boxdrawmixed` as a font-state transformer: the light lines
then the heavy lines. -/
def boxdrawmixedFont (p : Params) (strokeFn : List Pt → ℚ → Bool → List Contour)
    (post : List Contour → List Contour) (target : ℕ)
    (lightLines heavyLines : List (List Pt)) (f : Font) : Font :=
  postProcess post p target
    (heavyLines.foldl
      (fun g l => boxdrawlineFont p strokeFn target l p.boxHeavyWeight false g)
      (lightLines.foldl
        (fun g l => boxdrawlineFont p strokeFn target l p.boxLightWeight false g)
        f))

/-- `GlyphProxy.boxdrawdiag` as a font-state transformer: light weight,
`truncate = params.boxLineTruncate`. -/
def boxdrawdiagFont (p : Params) (strokeFn : List Pt → ℚ → Bool → List Contour)
    (post : List Contour → List Contour) (target : ℕ)
    (lines : List (List Pt)) (f : Font) : Font :=
  postProcess post p target
    (lines.foldl
      (fun g l =>
        boxdrawlineFont p strokeFn target l p.boxLightWeight
          p.boxLineTruncate g) f)

/-- An ellipse contour as `rawellipse` emits it: a unit circle scaled by
`(rx, ry)`, translated to `(cx, cy)`, possibly direction-reversed (a
hole). -/
structure EllContour where
  cx : ℚ
  cy : ℚ
  rx : ℚ
  ry : ℚ
  reversed : Bool
deriving DecidableEq

/-- The contours `GlyphProxy.rawellipse` (lines 307-324) feeds to the pen
before the clip rectangle is added: the outer contour only when both outer
radii are strictly positive, then the inner, reversed-winding contour only
when both inner radii are strictly positive. -/
def rawellipseContours (cx cy orx ory irx iry : ℚ) : List EllContour :=
  (if 0 < orx ∧ 0 < ory then [⟨cx, cy, orx, ory, false⟩] else []) ++
  (if 0 < irx ∧ 0 < iry then [⟨cx, cy, irx, iry, true⟩] else [])

/-- `GlyphProxy.ellipse` (lines 326-338): unit-square arguments scaled to
design units (`width * r` horizontally, `height * r` vertically) before
calling `rawellipse`. -/
def ellipseContours (p : Params) (cx cy orx ory irx iry : ℚ) : List EllContour :=
  rawellipseContours (p.width * cx) (p.ascent - p.height * cy)
    (p.width * orx) (p.height * ory) (p.width * irx) (p.height * iry)

/-- Python division, failing with `ZeroDivisionError` on a zero
denominator. -/
def cdiv (a b : ℚ) : Except String ℚ :=
  if b = 0 then Except.error "ZeroDivisionError" else Except.ok (a / b)

/-- The preamble of `slcgen` (lines 414-424): the derived ratios
`xe, ye, xg, yg, xgd, ygd, ty, tx`, computed by division before any glyph
is created.  The `xgd`/`ygd` denominators are
`sin(atan2(height, width)) * width * 2` and
`cos(atan2(height, width)) * height * 2`, which vanish exactly when
`height = 0` or `width = 0`; they are modelled by that explicit guard
since the trigonometric values are irrational. -/
def slcgenPreamble (p : Params) : Except String Unit := do
  _ ← cdiv p.boxLightWeight (p.width * 2)
  _ ← cdiv p.boxLightWeight (p.height * 2)
  _ ← cdiv (p.boxLightWeight + p.boxDoubleGap) (p.width * 2)
  _ ← cdiv (p.boxLightWeight + p.boxDoubleGap) (p.height * 2)
  _ ← (if p.height = 0 ∨ p.width = 0
        then (Except.error "ZeroDivisionError" : Except String ℚ)
        else Except.ok 0)
  _ ← cdiv p.boxTickLength p.height
  _ ← cdiv p.boxTickLength p.width
  Except.ok ()

/-- The run structure of `slcgen` (lines 414-952): parameters are resolved
unconditionally (`SLCParameters.__init__` performs no validation and can
raise nothing), then the preamble ratios are computed; if they succeed the
glyphs are built — during which `diagfill` (called for `u1FB98`/`u1FB99`
at lines 758-759, before the output is written) raises
`ZeroDivisionError` at its stripe-count division `x / (fill + space)`
(line 198) when the resolved diagonal weight sum is zero — and only after
every glyph is built is the output file written.  The shade / bitmap /
sepmap loops divide only inside loop bodies that are never entered with a
zero divisor (`range(0)` is empty), and no other glyph-building step
divides by an override-dependent quantity, so these are the only abort
points.  `some p` means the run completes and writes output under
parameters `p`; `none` means it aborts with no output. -/
def slcgenRun (o : Overrides) : Option Params :=
  match slcgenPreamble (SLCParameters.init o) with
  | Except.error _ => none
  | Except.ok _ =>
    if diagWeightSumZero o then none
    else some (SLCParameters.init o)

section PyRoundLemmas

theorem floor_le_pyRound (q : ℚ) : ⌊q⌋ ≤ pyRound q := by
  unfold pyRound
  split_ifs <;> omega

theorem pyRound_le_floor_add_one (q : ℚ) : pyRound q ≤ ⌊q⌋ + 1 := by
  unfold pyRound
  split_ifs <;> omega

theorem pyRound_intCast (n : ℤ) : pyRound (n : ℚ) = n := by
  unfold pyRound
  rw [Int.floor_intCast]
  norm_num

theorem int_le_pyRound {n : ℤ} {q : ℚ} (h : (n : ℚ) ≤ q) : n ≤ pyRound q :=
  le_trans (Int.le_floor.mpr h) (floor_le_pyRound q)

theorem pyRound_le_int {n : ℤ} {q : ℚ} (h : q ≤ (n : ℚ)) : pyRound q ≤ n := by
  rcases eq_or_lt_of_le (Int.floor_le_floor h) with he | hl
  · have hn : ⌊(n : ℚ)⌋ = n := Int.floor_intCast n
    have hfn : ⌊q⌋ = n := by omega
    have hqn : q = (n : ℚ) := le_antisymm h (by rw [← hfn]; exact Int.floor_le q)
    rw [hqn, pyRound_intCast]
  · have hn : ⌊(n : ℚ)⌋ = n := Int.floor_intCast n
    have hb : ⌊q⌋ + 1 ≤ n := by omega
    exact le_trans (pyRound_le_floor_add_one q) hb

theorem pyRound_mono {q q' : ℚ} (h : q ≤ q') : pyRound q ≤ pyRound q' := by
  rcases lt_or_le ⌊q⌋ ⌊q'⌋ with hf | hf
  · exact le_trans (pyRound_le_floor_add_one q) (le_trans (by omega) (floor_le_pyRound q'))
  · have hff : ⌊q⌋ = ⌊q'⌋ := le_antisymm (Int.floor_le_floor h) hf
    have hr : q - (⌊q⌋ : ℚ) ≤ q' - (⌊q'⌋ : ℚ) := by
      rw [hff]; linarith
    unfold pyRound
    rw [hff]
    split_ifs <;> first | omega | linarith

end PyRoundLemmas

/-- C8: metric resolution follows the stated fallback chain — `ascent`
resolves to its override, else `4 * descent` when `descent` is given, else
`800`; `descent` to its override, else `ascent / 4`, else `200`; `height`
always equals `ascent + descent`; `width` to its override, else `height`;
and in particular `ascent = None, descent = 200` resolves to
`ascent = 800`, `height = 1000`, `width = 1000`. -/
theorem metric_resolution_chain :
    (∀ o : Overrides, ∀ a, o.ascent = some a → resolveAscent o = a) ∧
    (∀ o : Overrides, ∀ d, o.ascent = none → o.descent = some d →
      resolveAscent o = 4 * d) ∧
    (∀ o : Overrides, o.ascent = none → o.descent = none → resolveAscent o = 800) ∧
    (∀ o : Overrides, ∀ d, o.descent = some d → resolveDescent o = d) ∧
    (∀ o : Overrides, ∀ a, o.descent = none → o.ascent = some a →
      resolveDescent o = a / 4) ∧
    (∀ o : Overrides, o.descent = none → o.ascent = none → resolveDescent o = 200) ∧
    (∀ o : Overrides,
      (SLCParameters.init o).height =
        (SLCParameters.init o).ascent + (SLCParameters.init o).descent) ∧
    (∀ o : Overrides, ∀ w, o.width = some w → resolveWidth o = w) ∧
    (∀ o : Overrides, o.width = none → resolveWidth o = resolveHeight o) ∧
    (∀ o : Overrides, o.ascent = none → o.descent = some 200 → o.width = none →
      (SLCParameters.init o).ascent = 800 ∧
      (SLCParameters.init o).height = 1000 ∧
      (SLCParameters.init o).width = 1000) := by
  refine ⟨?_, ?_, ?_, ?_, ?_, ?_, ?_, ?_, ?_, ?_⟩
  · intro o a h; simp [resolveAscent, h]
  · intro o d ha hd; simp [resolveAscent, ha, hd]; ring
  · intro o ha hd; simp [resolveAscent, ha, hd]
  · intro o d h; simp [resolveDescent, h]
  · intro o a hd ha; simp [resolveDescent, hd, ha]
  · intro o hd ha; simp [resolveDescent, hd, ha]
  · intro o; rfl
  · intro o w h; simp [resolveWidth, h]
  · intro o h; simp [resolveWidth, h]
  · intro o ha hd hw
    refine ⟨?_, ?_, ?_⟩ <;>
      simp [SLCParameters.init, resolveAscent, resolveDescent, resolveHeight,
        resolveWidth, ha, hd, hw] <;> norm_num

/-- Witness for C8 at the concrete input `ascent = None, descent = 200`,
no width override. -/
theorem metric_resolution_chain_witness :
    (SLCParameters.init { descent := some 200 }).ascent = 800 ∧
    (SLCParameters.init { descent := some 200 }).height = 1000 ∧
    (SLCParameters.init { descent := some 200 }).width = 1000 :=
  metric_resolution_chain.2.2.2.2.2.2.2.2.2 { descent := some 200 } rfl rfl rfl

/-- C4: each separation side resolves to its own override, else the
opposite edge's override, else the perpendicular-axis override when
exactly one of that perpendicular pair was given, else `height/18`; with
only `separationLeft` given all four sides resolve to it; with only
`separationTop` and `separationBottom` given, left and right resolve to
`height/18`. -/
theorem separation_resolution :
    (∀ o : Overrides,
      resolveSepTop o =
        sepResolveSpec o.separationTop o.separationBottom
          o.separationRight o.separationLeft (resolveHeight o / 18) ∧
      resolveSepRight o =
        sepResolveSpec o.separationRight o.separationLeft
          o.separationTop o.separationBottom (resolveHeight o / 18) ∧
      resolveSepBottom o =
        sepResolveSpec o.separationBottom o.separationTop
          o.separationRight o.separationLeft (resolveHeight o / 18) ∧
      resolveSepLeft o =
        sepResolveSpec o.separationLeft o.separationRight
          o.separationTop o.separationBottom (resolveHeight o / 18)) ∧
    (∀ o : Overrides, ∀ v, o.separationTop = none → o.separationRight = none →
      o.separationBottom = none → o.separationLeft = some v →
      resolveSepTop o = v ∧ resolveSepRight o = v ∧
      resolveSepBottom o = v ∧ resolveSepLeft o = v) ∧
    (∀ o : Overrides, ∀ tv bv, o.separationTop = some tv →
      o.separationBottom = some bv → o.separationRight = none →
      o.separationLeft = none →
      resolveSepRight o = resolveHeight o / 18 ∧
      resolveSepLeft o = resolveHeight o / 18) := by
  refine ⟨fun o => ⟨rfl, rfl, rfl, rfl⟩, ?_, ?_⟩
  · intro o v ht hr hb hl
    refine ⟨?_, ?_, ?_, ?_⟩ <;>
      simp [resolveSepTop, resolveSepRight, resolveSepBottom, resolveSepLeft,
        ht, hr, hb, hl]
  · intro o tv bv ht hb hr hl
    constructor <;>
      simp [resolveSepRight, resolveSepLeft, ht, hr, hb, hl]

/-- Witness for C4: with only `separationLeft = 7` supplied, all four
sides resolve to `7`. -/
theorem separation_resolution_witness :
    resolveSepTop { separationLeft := some 7 } = 7 ∧
    resolveSepRight { separationLeft := some 7 } = 7 ∧
    resolveSepBottom { separationLeft := some 7 } = 7 ∧
    resolveSepLeft { separationLeft := some 7 } = 7 :=
  separation_resolution.2.1 { separationLeft := some 7 } 7 rfl rfl rfl rfl

theorem pyRound_zero : pyRound 0 = 0 := by
  have h := pyRound_intCast 0
  simpa using h

/-- Every design rectangle whose unit-square coordinates lie in `[0, 1]`
is contained in the design rectangle of `rect(0, 0, 1, 1)`. -/
theorem rectSet_designRect_subset (p : Params) (hw : 0 ≤ p.width)
    (hh : 0 ≤ p.height) {a b c d : ℚ}
    (ha0 : 0 ≤ a) (ha1 : a ≤ 1) (hb0 : 0 ≤ b) (hb1 : b ≤ 1)
    (hc0 : 0 ≤ c) (hc1 : c ≤ 1) (hd0 : 0 ≤ d) (hd1 : d ≤ 1) :
    rectSet (designRect p a b c d) ⊆ rectSet (fullRect p) := by
  intro q hq
  simp only [rectSet, designRect, fullRect, Set.mem_setOf_eq, mul_zero, mul_one,
    sub_zero, pyRound_zero, Int.cast_zero] at hq ⊢
  obtain ⟨h1, h2, h3, h4⟩ := hq
  have qxa0 : (0:ℚ) ≤ ((pyRound (p.width * a) : ℤ) : ℚ) := by
    exact_mod_cast int_le_pyRound (by push_cast; exact mul_nonneg hw ha0)
  have qxc0 : (0:ℚ) ≤ ((pyRound (p.width * c) : ℤ) : ℚ) := by
    exact_mod_cast int_le_pyRound (by push_cast; exact mul_nonneg hw hc0)
  have qxaW : ((pyRound (p.width * a) : ℤ) : ℚ) ≤ ((pyRound p.width : ℤ) : ℚ) := by
    exact_mod_cast pyRound_mono (mul_le_of_le_one_right hw ha1)
  have qxcW : ((pyRound (p.width * c) : ℤ) : ℚ) ≤ ((pyRound p.width : ℤ) : ℚ) := by
    exact_mod_cast pyRound_mono (mul_le_of_le_one_right hw hc1)
  have qybA : ((pyRound (p.ascent - p.height * b) : ℤ) : ℚ) ≤
      ((pyRound p.ascent : ℤ) : ℚ) := by
    exact_mod_cast pyRound_mono (by nlinarith)
  have qydA : ((pyRound (p.ascent - p.height * d) : ℤ) : ℚ) ≤
      ((pyRound p.ascent : ℤ) : ℚ) := by
    exact_mod_cast pyRound_mono (by nlinarith)
  have qybL : ((pyRound (p.ascent - p.height) : ℤ) : ℚ) ≤
      ((pyRound (p.ascent - p.height * b) : ℤ) : ℚ) := by
    exact_mod_cast pyRound_mono (by nlinarith)
  have qydL : ((pyRound (p.ascent - p.height) : ℤ) : ℚ) ≤
      ((pyRound (p.ascent - p.height * d) : ℤ) : ℚ) := by
    exact_mod_cast pyRound_mono (by nlinarith)
  refine ⟨?_, ?_, ?_, ?_⟩
  · exact le_trans (le_trans (min_le_left _ _) (le_min qxa0 qxc0)) h1
  · exact le_trans h2 (le_trans (max_le qxaW qxcW) (le_max_right _ _))
  · exact le_trans (le_trans (min_le_right _ _) (le_min qybL qydL)) h3
  · exact le_trans h4 (le_trans (max_le qybA qydA) (le_max_left _ _))

theorem mem_shadeCells {rows cols : ℕ} {inverse : Bool} {x y : ℕ} :
    (x, y) ∈ shadeCells rows cols inverse ↔
      x < cols ∧ y < rows ∧ shadeCond rows cols inverse x y = true := by
  unfold shadeCells
  simp only [List.mem_flatMap, List.mem_range]
  constructor
  · rintro ⟨y', hy', x', hx', hmem⟩
    split at hmem
    · next hcnd =>
      simp only [List.mem_singleton, Prod.mk.injEq] at hmem
      obtain ⟨hx, hy⟩ := hmem
      subst hx; subst hy
      exact ⟨hx', hy', hcnd⟩
    · simp at hmem
  · rintro ⟨hx, hy, hcnd⟩
    exact ⟨y, hy, x, hx, by simp [hcnd]⟩

theorem mem_ltshadeCells {rows cols : ℕ} {x y : ℕ} :
    (x, y) ∈ ltshadeCells rows cols ↔
      x < cols ∧ y < rows / 2 ∧ ltshadeCond rows cols x y = true := by
  unfold ltshadeCells
  simp only [List.mem_flatMap, List.mem_range]
  constructor
  · rintro ⟨y', hy', x', hx', hmem⟩
    split at hmem
    · next hcnd =>
      simp only [List.mem_singleton, Prod.mk.injEq] at hmem
      obtain ⟨hx, hy⟩ := hmem
      subst hx; subst hy
      exact ⟨hx', hy', hcnd⟩
    · simp at hmem
  · rintro ⟨hx, hy, hcnd⟩
    exact ⟨y, hy, x, hx, by simp [hcnd]⟩

/-- C3: for `rows, cols >= 1`, `shade` fills cell `(x, y)` (with
`x < cols`, `y < rows`) iff
`((x+y) & 1) ^ ((rows+cols) & 1) ^ (0 if inverse else 1)` is nonzero, and
the resulting shape is the union of exactly the rectangles of those filled
cells. -/
theorem shade_parity_formula (p : Params) (rows cols : ℕ) (inverse : Bool)
    (hrows : 1 ≤ rows) (hcols : 1 ≤ cols) :
    (∀ x y, x < cols → y < rows →
      ((x, y) ∈ shadeCells rows cols inverse ↔
        (((x + y) &&& 1) ^^^ ((rows + cols) &&& 1) ^^^
          (if inverse then 0 else 1)) ≠ 0)) ∧
    shade p rows cols inverse =
      (shadeCells rows cols inverse).map (fun c => cellRect p rows cols c.1 c.2) ∧
    (∀ c ∈ shadeCells rows cols inverse, c.1 < cols ∧ c.2 < rows) := by
  refine ⟨?_, rfl, ?_⟩
  · intro x y hx hy
    rw [mem_shadeCells]
    unfold shadeCond
    simp [hx, hy, bne_iff_ne]
  · rintro ⟨x, y⟩ hc
    rw [mem_shadeCells] at hc
    exact ⟨hc.1, hc.2.1⟩

/-- Witness for C3 at `rows = cols = 2`, `inverse = false`, with the
default parameters. -/
theorem shade_parity_formula_witness :
    (1 ≤ 2 ∧ 1 ≤ 2) ∧
    ∀ x y, x < 2 → y < 2 →
      ((x, y) ∈ shadeCells 2 2 false ↔
        (((x + y) &&& 1) ^^^ ((2 + 2) &&& 1) ^^^
          (if false then 0 else 1)) ≠ 0) :=
  ⟨⟨by decide, by decide⟩,
    (shade_parity_formula (SLCParameters.init {}) 2 2 false
      (by decide) (by decide)).1⟩

/-- C1 counterexample: the claim says `shade(2,2,false)` fills exactly
`{(0,1),(1,0)}`, but the code fills `(0,0)` and does not fill `(0,1)` (and
symmetrically for `inverse = true`). -/
theorem shade_2x2_claim_false :
    (0, 0) ∈ shadeCells 2 2 false ∧ (0, 1) ∉ shadeCells 2 2 false ∧
    (0, 1) ∈ shadeCells 2 2 true ∧ (0, 0) ∉ shadeCells 2 2 true := by decide

/-- C1 amended: `shade(2,2,false)` fills exactly the cells
`{(0,0),(1,1)}` and `shade(2,2,true)` fills exactly `{(0,1),(1,0)}` (the
two sets in the claim are swapped). -/
theorem shade_2x2_cells :
    shadeCells 2 2 false = [(0, 0), (1, 1)] ∧
    shadeCells 2 2 true = [(1, 0), (0, 1)] := by decide

/-- C6: for even `rows`, the region filled by `dkshade` is exactly the
full unit cell minus the ltshade-selected cells: their union is the whole
cell and their intersection is empty. -/
theorem dkshade_ltshade_partition (p : Params) (rows cols : ℕ)
    (heven : Even rows) (hw : 0 ≤ p.width) (hh : 0 ≤ p.height) :
    dkshadeRegion p rows cols ∪ ltshadeRegion p rows cols =
      rectSet (fullRect p) ∧
    dkshadeRegion p rows cols ∩ ltshadeRegion p rows cols = ∅ := by
  have hsub : ltshadeRegion p rows cols ⊆ rectSet (fullRect p) := by
    intro q hq
    simp only [ltshadeRegion, Set.mem_iUnion, exists_prop] at hq
    obtain ⟨r, hr, hqr⟩ := hq
    simp only [ltshade, List.mem_map] at hr
    obtain ⟨⟨x, y⟩, hcmem, rfl⟩ := hr
    rw [mem_ltshadeCells] at hcmem
    obtain ⟨hx, hy, -⟩ := hcmem
    have hcolpos : 0 < cols := lt_of_le_of_lt (Nat.zero_le x) hx
    have hrowpos : 0 < rows := by omega
    have hcq : (0:ℚ) < (cols:ℚ) := by exact_mod_cast hcolpos
    have hrq : (0:ℚ) < (rows:ℚ) := by exact_mod_cast hrowpos
    have hxle : ((x:ℚ) + 1) ≤ (cols:ℚ) := by exact_mod_cast hx
    have hyle : ((2 * y : ℚ) + 1) ≤ (rows:ℚ) := by
      have : 2 * y + 1 ≤ rows := by omega
      exact_mod_cast this
    refine rectSet_designRect_subset p hw hh ?_ ?_ ?_ ?_ ?_ ?_ ?_ ?_ hqr
    · exact div_nonneg (by positivity) (le_of_lt hcq)
    · rw [div_le_one hcq]; linarith
    · exact div_nonneg (by positivity) (le_of_lt hrq)
    · rw [div_le_one hrq]; linarith
    · exact div_nonneg (by positivity) (le_of_lt hcq)
    · rw [div_le_one hcq]; linarith
    · exact div_nonneg (by positivity) (le_of_lt hrq)
    · rw [div_le_one hrq]; linarith
  have hregion : dkshadeRegion p rows cols =
      rectSet (fullRect p) \ ltshadeRegion p rows cols := rfl
  constructor
  · rw [hregion, Set.diff_union_self]
    exact Set.union_eq_self_of_subset_right hsub
  · rw [hregion, Set.diff_inter_self]

/-- Witness for C6 at `rows = cols = 2` with the default parameters. -/
theorem dkshade_ltshade_partition_witness :
    (Even 2 ∧ 0 ≤ (SLCParameters.init {}).width ∧
      0 ≤ (SLCParameters.init {}).height) ∧
    (dkshadeRegion (SLCParameters.init {}) 2 2 ∪
        ltshadeRegion (SLCParameters.init {}) 2 2 =
      rectSet (fullRect (SLCParameters.init {})) ∧
    dkshadeRegion (SLCParameters.init {}) 2 2 ∩
        ltshadeRegion (SLCParameters.init {}) 2 2 = ∅) :=
  ⟨⟨by decide, by norm_num [SLCParameters.init, resolveWidth, resolveHeight,
      resolveAscent, resolveDescent],
    by norm_num [SLCParameters.init, resolveHeight, resolveAscent,
      resolveDescent]⟩,
    dkshade_ltshade_partition (SLCParameters.init {}) 2 2 (by decide)
      (by norm_num [SLCParameters.init, resolveWidth, resolveHeight,
        resolveAscent, resolveDescent])
      (by norm_num [SLCParameters.init, resolveHeight, resolveAscent,
        resolveDescent])⟩

/-- C7: `diagfill` output lies inside the em box — the final step clips
the (arbitrary) rotated stripe set against `rect(0,0,1,1)`, which for
integral metrics is exactly `[0,width] x [-descent,ascent]`; rounding the
surviving vertices keeps them inside the box. -/
theorem diagfill_inside_embox (p : Params) (stripes : Set Pt)
    (aI dI wI : ℤ) (ha : p.ascent = (aI : ℚ)) (hd : p.descent = (dI : ℚ))
    (hw : p.width = (wI : ℚ)) (hhad : p.height = p.ascent + p.descent)
    (hw0 : 0 ≤ p.width) (hh0 : 0 ≤ p.height) :
    diagfillResult p stripes ⊆ emBox p ∧
    ∀ q ∈ diagfillResult p stripes, roundPt q ∈ emBox p := by
  have c1 : pyRound (p.width * 0) = 0 := by rw [mul_zero]; exact pyRound_zero
  have c2 : pyRound (p.width * 1) = wI := by rw [mul_one, hw, pyRound_intCast]
  have c3 : pyRound (p.ascent - p.height * 0) = aI := by
    rw [mul_zero, sub_zero, ha, pyRound_intCast]
  have c4 : pyRound (p.ascent - p.height * 1) = -dI := by
    have he : p.ascent - p.height * 1 = ((-dI : ℤ) : ℚ) := by
      rw [mul_one, hhad, ha, hd]; push_cast; ring
    rw [he, pyRound_intCast]
  have hwI : (0:ℤ) ≤ wI := by exact_mod_cast hw ▸ hw0
  have hda : -dI ≤ aI := by
    have : (0:ℚ) ≤ (aI : ℚ) + (dI : ℚ) := by
      rw [← ha, ← hd, ← hhad]; exact hh0
    have : (0:ℤ) ≤ aI + dI := by exact_mod_cast this
    omega
  have hbox : ∀ q : Pt, q ∈ rectSet (fullRect p) ↔
      (0:ℚ) ≤ q.1 ∧ q.1 ≤ (wI:ℚ) ∧ ((-dI : ℤ):ℚ) ≤ q.2 ∧ q.2 ≤ (aI:ℚ) := by
    intro q
    simp only [rectSet, fullRect, designRect, Set.mem_setOf_eq, c1, c2, c3, c4]
    have hminx : min ((0:ℤ):ℚ) ((wI:ℤ):ℚ) = ((0:ℤ):ℚ) := by
      apply min_eq_left; exact_mod_cast hwI
    have hmaxx : max ((0:ℤ):ℚ) ((wI:ℤ):ℚ) = ((wI:ℤ):ℚ) := by
      apply max_eq_right; exact_mod_cast hwI
    have hminy : min ((aI:ℤ):ℚ) (((-dI:ℤ)):ℚ) = (((-dI:ℤ)):ℚ) := by
      apply min_eq_right; exact_mod_cast hda
    have hmaxy : max ((aI:ℤ):ℚ) (((-dI:ℤ)):ℚ) = ((aI:ℤ):ℚ) := by
      apply max_eq_left; exact_mod_cast hda
    rw [hminx, hmaxx, hminy, hmaxy]
    norm_num
  constructor
  · rintro q ⟨-, hqbox⟩
    rw [hbox q] at hqbox
    obtain ⟨h1, h2, h3, h4⟩ := hqbox
    refine ⟨h1, ?_, ?_, ?_⟩
    · rw [hw]; exact h2
    · rw [hd]; exact_mod_cast h3
    · rw [ha]; exact h4
  · rintro q ⟨-, hqbox⟩
    rw [hbox q] at hqbox
    obtain ⟨h1, h2, h3, h4⟩ := hqbox
    have r1 : (0:ℤ) ≤ pyRound q.1 := int_le_pyRound (by exact_mod_cast h1)
    have r2 : pyRound q.1 ≤ wI := pyRound_le_int h2
    have r3 : -dI ≤ pyRound q.2 := int_le_pyRound (by exact_mod_cast h3)
    have r4 : pyRound q.2 ≤ aI := pyRound_le_int (by exact_mod_cast h4)
    simp only [roundPt, emBox, Set.mem_setOf_eq]
    refine ⟨by exact_mod_cast r1, ?_, ?_, ?_⟩
    · rw [hw]; exact_mod_cast r2
    · rw [hd]; exact_mod_cast r3
    · rw [ha]; exact_mod_cast r4

/-- Witness for C7 with the default parameters and the universal stripe
set. -/
theorem diagfill_inside_embox_witness :
    ((SLCParameters.init {}).ascent = ((800:ℤ):ℚ) ∧
      (SLCParameters.init {}).descent = ((200:ℤ):ℚ) ∧
      (SLCParameters.init {}).width = ((1000:ℤ):ℚ)) ∧
    diagfillResult (SLCParameters.init {}) Set.univ ⊆
      emBox (SLCParameters.init {}) :=
  ⟨⟨by norm_num [SLCParameters.init, resolveAscent],
    by norm_num [SLCParameters.init, resolveDescent],
    by norm_num [SLCParameters.init, resolveWidth, resolveHeight,
      resolveAscent, resolveDescent]⟩,
    (diagfill_inside_embox (SLCParameters.init {}) Set.univ 800 200 1000
      (by norm_num [SLCParameters.init, resolveAscent])
      (by norm_num [SLCParameters.init, resolveDescent])
      (by norm_num [SLCParameters.init, resolveWidth, resolveHeight,
        resolveAscent, resolveDescent])
      rfl
      (by norm_num [SLCParameters.init, resolveWidth, resolveHeight,
        resolveAscent, resolveDescent])
      (by norm_num [SLCParameters.init, resolveHeight, resolveAscent,
        resolveDescent])).1⟩

/-- C5: the truncating stroke policy extends each polyline by one
segment-step beyond each end (`p0 - (p1 - p0)` at the front, symmetric at
the far end), strokes with square caps and mitered joins and clips to the
em box; `boxdrawdiag` truncates exactly when `boxLineTruncate`, while
`boxdrawlight`, `boxdrawheavy` and `boxdrawmixed` always stroke
non-truncating with butt caps. -/
theorem stroke_policy :
    (∀ (p : Params) (line : List Pt) (w : ℚ),
      boxdrawline p line w true =
        { points := (extendpoints line).map (toDesign p), weight := w,
          cap := CapStyle.square, join := JoinStyle.miter,
          clip := some (emClipRect p) }) ∧
    (∀ (p : Params) (line : List Pt) (w : ℚ),
      boxdrawline p line w false =
        { points := line.map (toDesign p), weight := w,
          cap := CapStyle.butt, join := JoinStyle.miter, clip := none }) ∧
    (∀ a b : Pt, extendpoints [a, b] = [psub a (psub b a), psub b (psub a b)]) ∧
    (∀ a b c : Pt,
      extendpoints [a, b, c] = [psub a (psub b a), b, psub c (psub b c)]) ∧
    (∀ p : Params, emClipRect p = ⟨0, p.ascent, p.width, -p.descent⟩) ∧
    (∀ (p : Params) (lines : List (List Pt)) (s : Stroke),
      s ∈ boxdrawdiagStrokes p lines →
        s.weight = p.boxLightWeight ∧
        s.cap = (if p.boxLineTruncate then CapStyle.square else CapStyle.butt) ∧
        s.clip = (if p.boxLineTruncate then some (emClipRect p) else none)) ∧
    (∀ (p : Params) (lines : List (List Pt)) (s : Stroke),
      s ∈ boxdrawlightStrokes p lines →
        s.cap = CapStyle.butt ∧ s.clip = none) ∧
    (∀ (p : Params) (lines : List (List Pt)) (s : Stroke),
      s ∈ boxdrawheavyStrokes p lines →
        s.cap = CapStyle.butt ∧ s.clip = none) ∧
    (∀ (p : Params) (ll hl : List (List Pt)) (s : Stroke),
      s ∈ boxdrawmixedStrokes p ll hl →
        s.cap = CapStyle.butt ∧ s.clip = none) := by
  refine ⟨fun p line w => rfl, fun p line w => rfl, fun a b => rfl,
    fun a b c => rfl, fun p => rfl, ?_, ?_, ?_, ?_⟩
  · intro p lines s hs
    simp only [boxdrawdiagStrokes, List.mem_map] at hs
    obtain ⟨l, -, rfl⟩ := hs
    cases htr : p.boxLineTruncate <;> simp [boxdrawline, htr]
  · intro p lines s hs
    simp only [boxdrawlightStrokes, List.mem_map] at hs
    obtain ⟨l, -, rfl⟩ := hs
    simp [boxdrawline]
  · intro p lines s hs
    simp only [boxdrawheavyStrokes, List.mem_map] at hs
    obtain ⟨l, -, rfl⟩ := hs
    simp [boxdrawline]
  · intro p ll hl s hs
    simp only [boxdrawmixedStrokes, List.mem_append, List.mem_map] at hs
    rcases hs with ⟨l, -, rfl⟩ | ⟨l, -, rfl⟩ <;> simp [boxdrawline]

/-- Witness for C5: a diagonal stroke with the default parameters
(`boxLineTruncate = true`) gets square caps and the em-box clip. -/
theorem stroke_policy_witness :
    boxdrawline (SLCParameters.init {}) [(1, 0), (0, 1)]
        (SLCParameters.init {}).boxLightWeight
        (SLCParameters.init {}).boxLineTruncate ∈
      boxdrawdiagStrokes (SLCParameters.init {}) [[(1, 0), (0, 1)]] ∧
    ((boxdrawline (SLCParameters.init {}) [(1, 0), (0, 1)]
        (SLCParameters.init {}).boxLightWeight
        (SLCParameters.init {}).boxLineTruncate).cap =
      (if (SLCParameters.init {}).boxLineTruncate then CapStyle.square
        else CapStyle.butt)) :=
  ⟨by simp [boxdrawdiagStrokes],
    (stroke_policy.2.2.2.2.2.1 (SLCParameters.init {}) [[(1, 0), (0, 1)]]
      (boxdrawline (SLCParameters.init {}) [(1, 0), (0, 1)]
        (SLCParameters.init {}).boxLightWeight
        (SLCParameters.init {}).boxLineTruncate)
      (by simp [boxdrawdiagStrokes])).2.1⟩

theorem boxdrawlineFont_space (p : Params)
    (strokeFn : List Pt → ℚ → Bool → List Contour) (target : ℕ)
    (line : List Pt) (weight : ℚ) (truncate : Bool) (f : Font) :
    (boxdrawlineFont p strokeFn target line weight truncate f) 32 =
      ⟨[], p.width⟩ := by
  simp [boxdrawlineFont]

theorem boxdrawlineFont_frame (p : Params)
    (strokeFn : List Pt → ℚ → Bool → List Contour) (target : ℕ)
    (line : List Pt) (weight : ℚ) (truncate : Bool) (f : Font)
    {cp : ℕ} (hcp32 : cp ≠ 32) (hcpt : cp ≠ target) :
    (boxdrawlineFont p strokeFn target line weight truncate f) cp = f cp := by
  simp [boxdrawlineFont, Function.update_noteq hcp32,
    Function.update_noteq hcpt]

theorem foldl_boxdrawlineFont_space (p : Params)
    (strokeFn : List Pt → ℚ → Bool → List Contour) (target : ℕ)
    (w : ℚ) (tr : Bool) :
    ∀ (lines : List (List Pt)) (f : Font), lines ≠ [] →
      (lines.foldl
        (fun g l => boxdrawlineFont p strokeFn target l w tr g) f) 32 =
        ⟨[], p.width⟩ := by
  intro lines
  induction lines with
  | nil => intro f h; exact absurd rfl h
  | cons l ls ih =>
    intro f _
    cases ls with
    | nil =>
      simpa using boxdrawlineFont_space p strokeFn target l w tr f
    | cons l2 ls2 =>
      have h2 := ih (boxdrawlineFont p strokeFn target l w tr f) (by simp)
      simpa using h2

theorem foldl_boxdrawlineFont_frame (p : Params)
    (strokeFn : List Pt → ℚ → Bool → List Contour) (target : ℕ)
    (w : ℚ) (tr : Bool) {cp : ℕ} (hcp32 : cp ≠ 32) (hcpt : cp ≠ target) :
    ∀ (lines : List (List Pt)) (f : Font),
      (lines.foldl
        (fun g l => boxdrawlineFont p strokeFn target l w tr g) f) cp = f cp := by
  intro lines
  induction lines with
  | nil => intro f; rfl
  | cons l ls ih =>
    intro f
    have h2 := ih (boxdrawlineFont p strokeFn target l w tr f)
    simpa [boxdrawlineFont_frame p strokeFn target l w tr f hcp32 hcpt] using h2

theorem postProcess_other (post : List Contour → List Contour) (p : Params)
    (target : ℕ) {cp : ℕ} (hcpt : cp ≠ target) (f : Font) :
    postProcess post p target f cp = f cp := by
  simp [postProcess, Function.update_noteq hcpt]

/-- C9: every box-drawing stroke operation uses the glyph at codepoint 32
as a scratch buffer and, once at least one line has been stroked, leaves
it with no contours and advance width `Metrics.width`; glyphs other than
the target and the scratch slot are untouched, so only the target gains
contours and the space glyph stays empty. -/
theorem boxdraw_space_scratch (p : Params)
    (strokeFn : List Pt → ℚ → Bool → List Contour)
    (post : List Contour → List Contour) (target : ℕ) (f : Font)
    (htarget : target ≠ 32) :
    (∀ lines, lines ≠ [] →
      (boxdrawlightFont p strokeFn post target lines f) 32 = ⟨[], p.width⟩ ∧
      (boxdrawheavyFont p strokeFn post target lines f) 32 = ⟨[], p.width⟩ ∧
      (boxdrawdiagFont p strokeFn post target lines f) 32 = ⟨[], p.width⟩) ∧
    (∀ lightLines heavyLines, lightLines ≠ [] ∨ heavyLines ≠ [] →
      (boxdrawmixedFont p strokeFn post target lightLines heavyLines f) 32 =
        ⟨[], p.width⟩) ∧
    (∀ lines cp, cp ≠ 32 → cp ≠ target →
      (boxdrawlightFont p strokeFn post target lines f) cp = f cp ∧
      (boxdrawheavyFont p strokeFn post target lines f) cp = f cp ∧
      (boxdrawdiagFont p strokeFn post target lines f) cp = f cp) ∧
    (∀ lightLines heavyLines cp, cp ≠ 32 → cp ≠ target →
      (boxdrawmixedFont p strokeFn post target lightLines heavyLines f) cp =
        f cp) := by
  have h32t : (32 : ℕ) ≠ target := Ne.symm htarget
  refine ⟨?_, ?_, ?_, ?_⟩
  · intro lines hne
    refine ⟨?_, ?_, ?_⟩ <;>
      · simp only [boxdrawlightFont, boxdrawheavyFont, boxdrawdiagFont]
        rw [postProcess_other post p target h32t]
        exact foldl_boxdrawlineFont_space p strokeFn target _ _ lines f hne
  · intro lightLines heavyLines hne
    unfold boxdrawmixedFont
    rw [postProcess_other post p target h32t]
    cases heavyLines with
    | nil =>
      simp only [List.foldl_nil]
      exact foldl_boxdrawlineFont_space p strokeFn target _ _ lightLines f
        (by rcases hne with h | h; exact h; exact absurd rfl h)
    | cons hl hls =>
      exact foldl_boxdrawlineFont_space p strokeFn target _ _ (hl :: hls) _
        (by simp)
  · intro lines cp hcp32 hcpt
    refine ⟨?_, ?_, ?_⟩ <;>
      · simp only [boxdrawlightFont, boxdrawheavyFont, boxdrawdiagFont]
        rw [postProcess_other post p target hcpt]
        exact foldl_boxdrawlineFont_frame p strokeFn target _ _ hcp32 hcpt lines f
  · intro lightLines heavyLines cp hcp32 hcpt
    unfold boxdrawmixedFont
    rw [postProcess_other post p target hcpt,
      foldl_boxdrawlineFont_frame p strokeFn target _ _ hcp32 hcpt heavyLines _,
      foldl_boxdrawlineFont_frame p strokeFn target _ _ hcp32 hcpt lightLines f]

/-- Witness for C9: one light horizontal bar stroked into codepoint
0x2500 with the default parameters leaves the space glyph empty with
width 1000. -/
theorem boxdraw_space_scratch_witness :
    (9472 ≠ 32 ∧ ([[((0 : ℚ), (1/2 : ℚ)), ((1 : ℚ), (1/2 : ℚ))]] :
      List (List Pt)) ≠ []) ∧
    (boxdrawlightFont (SLCParameters.init {})
      (fun _ _ _ => [[((0 : ℚ), (0 : ℚ))]]) id 9472
      [[((0 : ℚ), (1/2 : ℚ)), ((1 : ℚ), (1/2 : ℚ))]]
      (fun _ => ⟨[], 0⟩)) 32 = ⟨[], (SLCParameters.init {}).width⟩ :=
  ⟨⟨by decide, by simp⟩,
    ((boxdraw_space_scratch (SLCParameters.init {})
      (fun _ _ _ => [[((0 : ℚ), (0 : ℚ))]]) id 9472
      (fun _ => ⟨[], 0⟩) (by decide)).1
      [[((0 : ℚ), (1/2 : ℚ)), ((1 : ℚ), (1/2 : ℚ))]] (by simp)).1⟩

/-- C10: `rawellipse` emits the inner (reversed, hole) contour exactly
when both inner radii are strictly positive and the outer contour exactly
when both outer radii are strictly positive; any call with inner radii
zero yields a solid clipped disk with no hole. -/
theorem ellipse_hole_iff :
    (∀ cx cy orx ory irx iry : ℚ,
      ((∃ e ∈ rawellipseContours cx cy orx ory irx iry, e.reversed = true) ↔
        0 < irx ∧ 0 < iry) ∧
      ((∃ e ∈ rawellipseContours cx cy orx ory irx iry, e.reversed = false) ↔
        0 < orx ∧ 0 < ory)) ∧
    (∀ cx cy orx ory : ℚ, 0 < orx → 0 < ory →
      rawellipseContours cx cy orx ory 0 0 = [⟨cx, cy, orx, ory, false⟩]) ∧
    (∀ (p : Params) (cx cy orx ory : ℚ),
      ∀ e ∈ ellipseContours p cx cy orx ory 0 0, e.reversed = false) := by
  refine ⟨?_, ?_, ?_⟩
  · intro cx cy orx ory irx iry
    constructor
    · unfold rawellipseContours
      split_ifs with ho hi hi <;> simp [hi]
    · unfold rawellipseContours
      split_ifs with ho hi hi <;> simp [ho]
  · intro cx cy orx ory ho1 ho2
    unfold rawellipseContours
    simp [ho1, ho2]
  · intro p cx cy orx ory e he
    unfold ellipseContours rawellipseContours at he
    rw [mul_zero] at he
    simp only [lt_self_iff_false, false_and, and_false, if_false,
      List.append_nil] at he
    split at he
    · simp only [List.mem_singleton] at he
      rw [he]
    · simp at he

/-- Witness for C10: a concrete solid disk call. -/
theorem ellipse_hole_iff_witness :
    ((0 : ℚ) < 2 ∧ (0 : ℚ) < 3) ∧
    rawellipseContours 1 1 2 3 0 0 = [⟨1, 1, 2, 3, false⟩] :=
  ⟨⟨by norm_num, by norm_num⟩,
    ellipse_hole_iff.2.1 1 1 2 3 (by norm_num) (by norm_num)⟩

/-- C2 counterexample: with `pixelWidth = 0` the resolved pixel
dimensions are zero, yet no error of any kind is raised — the run
completes and output is produced, contrary to the claim that an
`InvalidParameterError` aborts the run with no output. -/
theorem invalid_parameter_claim_false :
    (SLCParameters.init { pixelWidth := some 0 }).pixelWidth = 0 ∧
    (SLCParameters.init { pixelWidth := some 0 }).pixelHeight = 0 ∧
    slcgenRun { pixelWidth := some 0 } =
      some (SLCParameters.init { pixelWidth := some 0 }) := by
  refine ⟨rfl, rfl, ?_⟩
  unfold slcgenRun slcgenPreamble cdiv diagWeightSumZero resolveDiagWeights
  norm_num [SLCParameters.init, resolveWidth, resolveHeight,
    resolveAscent, resolveDescent, resolveBoxLightWeight,
    resolveBoxDoubleGap, resolveBoxTickLength, bind, Except.bind]

theorem slcgenPreamble_eq_ok_iff (p : Params) :
    slcgenPreamble p = Except.ok () ↔ (¬ p.width = 0 ∧ ¬ p.height = 0) := by
  by_cases hw : p.width = 0
  · simp only [slcgenPreamble, cdiv, hw]
    norm_num [bind, Except.bind]
    exact fun h => Except.noConfusion h
  · by_cases hh : p.height = 0
    · simp only [slcgenPreamble, cdiv, hh]
      norm_num [hw, bind, Except.bind]
      exact fun h => Except.noConfusion h
    · simp only [slcgenPreamble, cdiv]
      norm_num [hw, hh, bind, Except.bind]

/-- C2 amended: parameter resolution performs no validation and cannot
fail (no `InvalidParameterError` exists); zero or negative
`pixelWidth`/`pixelHeight` never abort the run.  The run aborts, always
via `ZeroDivisionError` and always without output, exactly when the
resolved `width` or `height` is zero (the derived-ratio divisions in
`slcgen`, before any glyph is built) or the resolved
`diagonalFillWeight + diagonalSpaceWeight` is zero (the stripe-count
division in `diagfill`, during glyph building) — the latter reachable by
overriding the fill weight to `0`, and, under exact arithmetic with the
default weight formula, by a negative `width` override such as `-500`. -/
theorem run_abort_characterization :
    (∀ o : Overrides, slcgenRun o = none ↔
      ((SLCParameters.init o).width = 0 ∨ (SLCParameters.init o).height = 0 ∨
        diagWeightSumZero o = true)) ∧
    slcgenRun { diagonalFillWeight := some 0 } = none ∧
    slcgenRun { width := some (-500) } = none ∧
    slcgenRun { pixelWidth := some (-3) } =
      some (SLCParameters.init { pixelWidth := some (-3) }) := by
  refine ⟨?_, ?_, ?_, ?_⟩
  case refine_2 =>
    unfold slcgenRun slcgenPreamble cdiv diagWeightSumZero resolveDiagWeights
    norm_num [SLCParameters.init, resolveWidth, resolveHeight,
      resolveAscent, resolveDescent, resolveBoxLightWeight,
      resolveBoxDoubleGap, resolveBoxTickLength, bind, Except.bind]
  case refine_3 =>
    unfold slcgenRun slcgenPreamble cdiv diagWeightSumZero resolveDiagWeights
    norm_num [SLCParameters.init, resolveWidth, resolveHeight,
      resolveAscent, resolveDescent, resolveBoxLightWeight,
      resolveBoxDoubleGap, resolveBoxTickLength, bind, Except.bind,
      abs_of_nonpos, abs_of_nonneg]
  case refine_4 =>
    unfold slcgenRun slcgenPreamble cdiv diagWeightSumZero resolveDiagWeights
    norm_num [SLCParameters.init, resolveWidth, resolveHeight,
      resolveAscent, resolveDescent, resolveBoxLightWeight,
      resolveBoxDoubleGap, resolveBoxTickLength, bind, Except.bind,
      abs_of_nonneg]
  intro o
  cases hsp : slcgenPreamble (SLCParameters.init o) with
  | ok u =>
    cases u
    have hok := (slcgenPreamble_eq_ok_iff (SLCParameters.init o)).mp hsp
    by_cases hz : diagWeightSumZero o = true
    · simp [slcgenRun, hsp, hz, hok.1, hok.2]
    · simp [slcgenRun, hsp, hz, hok.1, hok.2]
  | error e =>
    have hnok : ¬ slcgenPreamble (SLCParameters.init o) = Except.ok () := by
      rw [hsp]; simp
    have hwh : (SLCParameters.init o).width = 0 ∨
        (SLCParameters.init o).height = 0 := by
      by_contra hc
      push_neg at hc
      exact hnok ((slcgenPreamble_eq_ok_iff (SLCParameters.init o)).mpr hc)
    rcases hwh with hwz | hhz
    · simp [slcgenRun, hsp, hwz]
    · simp [slcgenRun, hsp, hhz]

end SLC
